import Mathlib

set_option maxHeartbeats 1000000

/-!
Verification development for the voya editor extension.

This file gives a shallow embedding, in Lean, of the two stateful cores of
the repository: the change-tracking service (`ChangeTrackerService` in the
source: debounced edit capture, the manual/agent change classifier, and the
per-change explanation status machine) and the tour playback side (the
webview provider's deepen-request handling and step navigation, plus the
webview application's message reducer and explanation resolution).

Conventions used throughout:
* Text is `List Char`; JS strings are embedded through `String.toList`.
* Times and identifiers are `Nat` (milliseconds, and a fresh-id counter that
  stands for the source's timestamp-plus-random id generator).
* The JS regular expressions of the classifier are embedded structurally:
  each `/m`-anchored pattern becomes a prefix matcher that is tried at every
  line start of the text, with the JS whitespace class restricted to its
  ASCII members. Greedy `\s+` / `\w+` repetition is implemented by maximal
  munch, which is faithful here because in every pattern the token following
  a repetition can never start with a character of the repeated class.
* Asynchronous calls to the explanation generator are embedded by passing
  the generator's outcome (`Except Unit (List Char)`) as an explicit
  argument to the operation that awaits it.
-/

namespace Voya

/-- ASCII members of the JS regex whitespace class, used by the classifier
patterns of `detectAgentChange`. -/
def isSpaceChar (c : Char) : Bool :=
  c == ' ' || c == '\t' || c == '\n' || c == '\r' || c == '\x0b' || c == '\x0c'

/-- Members of the JS regex word class used in the const-binding pattern. -/
def isWordChar (c : Char) : Bool :=
  c.isAlpha || c.isDigit || c == '_'

/-- Opening curly brace character. -/
def braceOpen : Char := Char.ofNat 123

/-- Closing curly brace character. -/
def braceClose : Char := Char.ofNat 125

/-- Split at newline characters, exactly as JS text.split on a newline:
the empty text yields one empty line, and a trailing newline yields a
trailing empty line. -/
def splitLines : List Char → List (List Char)
  | [] => [[]]
  | c :: rest =>
    match splitLines rest with
    | [] => [[c]]
    | l :: ls => if c == '\n' then [] :: l :: ls else (c :: l) :: ls

/-- Strip an expected literal from the front of the text. -/
def stripLit : List Char → List Char → Option (List Char)
  | [], cs => some cs
  | _ :: _, [] => none
  | p :: ps, c :: cs => if c == p then stripLit ps cs else none

/-- Strip one-or-more whitespace characters (maximal munch). -/
def stripSpaces1 : List Char → Option (List Char)
  | [] => none
  | c :: cs => if isSpaceChar c then some (cs.dropWhile isSpaceChar) else none

/-- Strip one-or-more word characters (maximal munch). -/
def stripWord1 : List Char → Option (List Char)
  | [] => none
  | c :: cs => if isWordChar c then some (cs.dropWhile isWordChar) else none

/-- Keyword literal used by the classifier patterns. -/
def kwExport : List Char := "export".toList

/-- Keyword literal used by the classifier patterns. -/
def kwAsync : List Char := "async".toList

/-- Keyword literal used by the classifier patterns. -/
def kwFunction : List Char := "function".toList

/-- Keyword literal used by the classifier patterns. -/
def kwClass : List Char := "class".toList

/-- Keyword literal used by the classifier patterns. -/
def kwInterface : List Char := "interface".toList

/-- Keyword literal used by the classifier patterns. -/
def kwConst : List Char := "const".toList

/-- Keyword literal used by the classifier patterns. -/
def kwImport : List Char := "import".toList

/-- Block-comment opener literal of the JSDoc pattern. -/
def kwJsdoc : List Char := "/**".toList

/-- Line-comment opener literal. -/
def kwSlashes : List Char := "//".toList

/-- Optional keyword followed by mandatory whitespace, as the regex group
of the shape open-paren keyword backslash-s plus close-paren question mark:
if the keyword with trailing whitespace is present it is consumed,
otherwise the text is left in place. -/
def stripOptKw (kw cs : List Char) : List Char :=
  match stripLit kw cs with
  | some rest =>
    match stripSpaces1 rest with
    | some rest2 => rest2
    | none => cs
  | none => cs

/-- Matcher for the function-declaration pattern of the source:
optional export, optional async, then the function keyword followed by
at least one whitespace character. -/
def matchFunctionPat (cs : List Char) : Bool :=
  match stripLit kwFunction (stripOptKw kwAsync (stripOptKw kwExport cs)) with
  | some rest => (stripSpaces1 rest).isSome
  | none => false

/-- Matcher for the class/interface declaration patterns: optional export,
then the given keyword followed by at least one whitespace character. -/
def matchKwPat (kw : List Char) (cs : List Char) : Bool :=
  match stripLit kw (stripOptKw kwExport cs) with
  | some rest => (stripSpaces1 rest).isSome
  | none => false

/-- Matcher for the const-binding pattern: optional export, the const
keyword, whitespace, a word, optional whitespace, then an equals sign or a
colon. -/
def matchConstPat (cs : List Char) : Bool :=
  match stripLit kwConst (stripOptKw kwExport cs) with
  | some r =>
    match stripSpaces1 r with
    | some r2 =>
      match stripWord1 r2 with
      | some r3 =>
        match r3.dropWhile isSpaceChar with
        | c :: _ => c == '=' || c == ':'
        | [] => false
      | none => false
    | none => false
  | none => false

/-- Matcher for the import-line pattern: the import keyword followed by at
least one whitespace character. -/
def matchImportPat (cs : List Char) : Bool :=
  match stripLit kwImport cs with
  | some rest => (stripSpaces1 rest).isSome
  | none => false

/-- Matcher for the block-comment opener pattern. -/
def matchJsdocPat (cs : List Char) : Bool :=
  (stripLit kwJsdoc cs).isSome

/-- Matcher for the line-comment pattern: optional whitespace then two
slashes. -/
def matchLineCommentPat (cs : List Char) : Bool :=
  (stripLit kwSlashes (cs.dropWhile isSpaceChar)).isSome

/-- Try a prefix matcher at every strict line start of the text (every
position right after a newline). -/
def anyLineStartAux (p : List Char → Bool) : List Char → Bool
  | [] => false
  | c :: rest => ((c == '\n') && p rest) || anyLineStartAux p rest

/-- Try a prefix matcher at every line start of the text, the start of the
text included, as a /m-anchored JS regex does. -/
def anyLineStart (p : List Char → Bool) (cs : List Char) : Bool :=
  p cs || anyLineStartAux p cs

/-- Disjunction of the seven multiline-anchored code patterns that the
source classifier tests against the change text. -/
def hasCodePattern (text : List Char) : Bool :=
  anyLineStart matchFunctionPat text ||
  anyLineStart (matchKwPat kwClass) text ||
  anyLineStart (matchKwPat kwInterface) text ||
  anyLineStart matchConstPat text ||
  anyLineStart matchImportPat text ||
  anyLineStart matchJsdocPat text ||
  anyLineStart matchLineCommentPat text

/-- Whether a line, with trailing whitespace ignored, ends in a semicolon
or a curly brace. This embeds one match of the statement-terminator regex
of the source, which counts one such match per line. -/
def lineEndsStmt (l : List Char) : Bool :=
  match l.reverse.dropWhile isSpaceChar with
  | c :: _ => c == ';' || c == braceOpen || c == braceClose
  | [] => false

/-- Number of lines that end, trailing whitespace ignored, in a semicolon
or a curly brace: the statement count of the source classifier. -/
def stmtLineCount (text : List Char) : Nat :=
  ((splitLines text).filter lineEndsStmt).length

/-- Embedding of ChangeTrackerService.detectAgentChange: the structural
heuristic deciding whether a change text looks agent-generated. -/
def detectAgentChange (text : List Char) : Bool :=
  let lines := splitLines text
  if lines.length < 3 then false
  else
    hasCodePattern text &&
    (text.count braceOpen == text.count braceClose) &&
    (decide (2 ≤ stmtLineCount text) || decide (5 ≤ lines.length))

/-- Origin attributed to a change, mirroring the source union of manual,
agent and auto. -/
inductive Source
  | manual
  | agent
  | auto
deriving DecidableEq, Repr

/-- The source attribution computed at change creation: agent when the
heuristic fires, manual otherwise (processChange in the source). -/
def classifySource (text : List Char) : Source :=
  if detectAgentChange text then Source.agent else Source.manual

/-! The change tracker (ChangeTrackerService in the source). -/

/-- Per-change explanation status. -/
inductive Status
  | pending
  | explaining
  | explained
  | error
deriving DecidableEq, Repr

/-- Change type recorded on a change; the tracker only ever creates
changes of kind added. -/
inductive ChangeType
  | added
  | modified
  | deleted
deriving DecidableEq, Repr

/-- A tracked code change (CodeChange in the source). Ids come from a
fresh-id counter that embeds the source's id generator; line numbers are
1-based as in the source. -/
structure CodeChange where
  id : Nat
  timestamp : Nat
  filePath : List Char
  changeType : ChangeType
  startLine : Nat
  endLine : Nat
  code : List Char
  explanation : Option (List Char)
  status : Status
  source : Source
deriving DecidableEq, Repr

/-- A journal session (JournalEntry in the source). -/
structure JournalEntry where
  id : Nat
  sessionStart : Nat
  sessionEnd : Option Nat := none
  changes : List CodeChange := []
  summary : Option (List Char) := none
deriving DecidableEq, Repr

/-- A pending debounce timer: its deadline and the captured edit payload
that processChange will receive when it fires. -/
structure PendingTimer where
  fireAt : Nat
  line0 : Nat
  text : List Char
deriving DecidableEq, Repr

/-- State of the ChangeTrackerService. The changes list embeds the JS Map
in insertion order; pendingChanges is keyed by (filePath, 0-based start
line), embedding the string key filePath-colon-line of the source (that
string key decomposes uniquely back into the pair, so the pair is an exact
embedding). The two listener flags model the subscriptions made by
startTracking: the edit listener is stored and disposed by stopTracking,
while the save listener is pushed onto the extension's subscription list
and is never disposed by stopTracking in the source. -/
structure TrackerState where
  changes : List CodeChange := []
  currentJournal : Option JournalEntry := none
  editListenerActive : Bool := false
  saveListenerSubscribed : Bool := false
  pendingChanges : List ((List Char × Nat) × PendingTimer) := []
  isTracking : Bool := false
  nextId : Nat := 0
deriving DecidableEq, Repr

/-- Debounce window of the source, in milliseconds. -/
def DEBOUNCE_MS : Nat := 2000

/-- Embedding of startTracking: no-op while tracking, otherwise opens a
fresh journal and subscribes both event listeners. -/
def startTracking (now : Nat) (s : TrackerState) : TrackerState :=
  if s.isTracking then s
  else
    { s with
      isTracking := true,
      currentJournal := some { id := s.nextId, sessionStart := now },
      nextId := s.nextId + 1,
      editListenerActive := true,
      saveListenerSubscribed := true }

/-- Embedding of stopTracking: no-op returning none when not tracking;
otherwise disposes the edit listener, clears the pending debounce timers,
stamps sessionEnd on the current journal, returns it and clears the
active-journal pointer. Note that the save listener flag is left as-is,
exactly as in the source, where the save watcher was pushed onto the
extension subscription list and is not disposed here. -/
def stopTracking (now : Nat) (s : TrackerState) : TrackerState × Option JournalEntry :=
  if s.isTracking then
    let s1 := { s with
      isTracking := false,
      editListenerActive := false,
      pendingChanges := [] }
    match s1.currentJournal with
    | some j =>
      let j1 := { j with sessionEnd := some now }
      ({ s1 with currentJournal := none }, some j1)
    | none => (s1, none)
  else (s, none)

/-- Does the text start with the given pattern. -/
def startsWithPat : List Char → List Char → Bool
  | [], _ => true
  | _ :: _, [] => false
  | p :: ps, c :: cs => c == p && startsWithPat ps cs

/-- Does the text contain the given pattern as a contiguous substring. -/
def containsPat (pat : List Char) : List Char → Bool
  | [] => startsWithPat pat []
  | c :: cs => startsWithPat pat (c :: cs) || containsPat pat cs

/-- Does the text end with the given pattern. -/
def endsWithPat (pat cs : List Char) : Bool :=
  startsWithPat pat.reverse cs.reverse

/-- Embedding of shouldIgnoreFile: the ignore policy over file paths. All
of the source's ignore regexes are literal substring tests except the
source-map one, which anchors at the end of the path. -/
def shouldIgnoreFile (p : List Char) : Bool :=
  containsPat ("node_modules".toList) p ||
  containsPat (".git".toList) p ||
  containsPat ("dist/".toList) p ||
  containsPat ("build/".toList) p ||
  containsPat (".voya/".toList) p ||
  containsPat (".next/".toList) p ||
  containsPat ("package-lock.json".toList) p ||
  containsPat ("yarn.lock".toList) p ||
  containsPat (".min.".toList) p ||
  endsWithPat (".map".toList) p

/-- One edit event as delivered to handleDocumentChange, carrying a single
content change: the document scheme and path, the 0-based start line of
the replaced range, and the inserted text. The source loops over the
content changes of an event; an event with several content changes is
embedded as several consecutive events. -/
structure EditEvent where
  time : Nat
  scheme : List Char
  filePath : List Char
  line0 : Nat
  text : List Char
deriving DecidableEq, Repr

/-- Filters applied by handleDocumentChange before arming a debounce
timer: file scheme only, ignored paths skipped, whitespace-only inserts
skipped, and single-line inserts under 10 characters skipped. -/
def qualifiesEdit (e : EditEvent) : Bool :=
  e.scheme == "file".toList &&
  !shouldIgnoreFile e.filePath &&
  !e.text.all isSpaceChar &&
  !((splitLines e.text).length == 1 && decide (e.text.length < 10))

/-- Embedding of handleDocumentChange for one content change: if the edit
qualifies, any pending timer for the same (filePath, line) key is
cancelled and a new timer is armed for the fixed 2000 ms window, capturing
this edit's payload only. -/
def handleDocumentChange (e : EditEvent) (s : TrackerState) : TrackerState :=
  if qualifiesEdit e then
    let key := (e.filePath, e.line0)
    { s with pendingChanges :=
        (s.pendingChanges.filter (fun kv => kv.1 ≠ key)) ++
        [(key, { fireAt := e.time + DEBOUNCE_MS, line0 := e.line0, text := e.text })] }
  else s

/-- Edit events reach handleDocumentChange only while the edit listener
subscription is alive. -/
def onEditEvent (e : EditEvent) (s : TrackerState) : TrackerState :=
  if s.editListenerActive then handleDocumentChange e s else s

/-- Embedding of processChange: synthesize a pending change from the fired
timer payload, record it in the global map and append it to the active
journal. The source computes the 1-based range from the insertion's start
line and the inserted line count, classifies the text, and stamps the fire
time. -/
def processChange (now : Nat) (filePath : List Char) (line0 : Nat) (text : List Char)
    (s : TrackerState) : TrackerState :=
  let startLine := line0 + 1
  let c : CodeChange :=
    { id := s.nextId,
      timestamp := now,
      filePath := filePath,
      changeType := ChangeType.added,
      startLine := startLine,
      endLine := startLine + (splitLines text).length - 1,
      code := text,
      explanation := none,
      status := Status.pending,
      source := classifySource text }
  { s with
    nextId := s.nextId + 1,
    changes := s.changes ++ [c],
    currentJournal := s.currentJournal.map (fun j => { j with changes := j.changes ++ [c] }) }

/-- Fire every pending debounce timer whose deadline has been reached, in
table order, stamping each resulting change with its timer's deadline. -/
def fireDueTimers (now : Nat) (s : TrackerState) : TrackerState :=
  let due := s.pendingChanges.filter (fun kv => decide (kv.2.fireAt ≤ now))
  let rest := s.pendingChanges.filter (fun kv => !decide (kv.2.fireAt ≤ now))
  due.foldl (fun st kv => processChange kv.2.fireAt kv.1.1 kv.2.line0 kv.2.text st)
    { s with pendingChanges := rest }

/-- Fire every pending debounce timer regardless of deadline; used to
drain the table at the end of a run. -/
def flushTimers (s : TrackerState) : TrackerState :=
  s.pendingChanges.foldl
    (fun st kv => processChange kv.2.fireAt kv.1.1 kv.2.line0 kv.2.text st)
    { s with pendingChanges := [] }

/-- Update, by id, every copy of a change (the source mutates one shared
object that sits in both the global map and the journal's list; the
embedding updates both copies). -/
def updateChange (id : Nat) (f : CodeChange → CodeChange) (s : TrackerState) : TrackerState :=
  let g := fun c => if c.id == id then f c else c
  { s with
    changes := s.changes.map g,
    currentJournal := s.currentJournal.map (fun j => { j with changes := j.changes.map g }) }

/-- Lookup of a change by id in the global map. -/
def changeOf (s : TrackerState) (id : Nat) : Option CodeChange :=
  s.changes.find? (fun c => c.id == id)

/-- Status of a change by id. -/
def statusOf (s : TrackerState) (id : Nat) : Option Status :=
  (changeOf s id).map (fun c => c.status)

/-- Explanation of a change by id. -/
def explanationOf (s : TrackerState) (id : Nat) : Option (List Char) :=
  (changeOf s id).bind (fun c => c.explanation)

/-- First half of explainChange, up to the generator await: no-op when the
id is unknown or the change is already explaining or explained, otherwise
the status is set to explaining. The boolean reports whether an
explanation attempt was started (and hence whether the generator gets
invoked; the workspace is assumed present, its absence being one more way
for the attempt to fail, folded into the failing generator outcome). -/
def explainStart (id : Nat) (s : TrackerState) : TrackerState × Bool :=
  match changeOf s id with
  | none => (s, false)
  | some c =>
    if c.status = Status.explaining ∨ c.status = Status.explained then (s, false)
    else (updateChange id (fun c => { c with status := Status.explaining }) s, true)

/-- Second half of explainChange, after the generator await: on success
the explanation is stored and the status becomes explained; on failure the
status becomes error and the explanation is untouched. The continuation
after the await runs exactly for the change that the same invocation just
moved to explaining, and no interleaved operation can move a change out of
explaining; the embedding makes that explicit by acting only on a change
currently in explaining. -/
def explainFinish (id : Nat) (r : Except Unit (List Char)) (s : TrackerState) : TrackerState :=
  match changeOf s id with
  | none => s
  | some c =>
    if c.status = Status.explaining then
      match r with
      | Except.ok e =>
        updateChange id (fun c => { c with explanation := some e, status := Status.explained }) s
      | Except.error _ =>
        updateChange id (fun c => { c with status := Status.error }) s
    else s

/-- Embedding of explainChange run to completion with a given generator
outcome. The boolean reports whether an explanation attempt was made; the
method never throws, a failing generator being mapped to the error status. -/
def explainChange (id : Nat) (r : Except Unit (List Char)) (s : TrackerState) :
    TrackerState × Bool :=
  let p := explainStart id s
  if p.2 then (explainFinish id r p.1, true) else (p.1, false)

/-- Run explainChange sequentially over a list of change ids, the k-th
call receiving the k-th generator outcome. -/
def runExplainAll (gens : Nat → Except Unit (List Char)) :
    List Nat → Nat → TrackerState → TrackerState
  | [], _, s => s
  | id :: rest, k, s => runExplainAll gens rest (k + 1) (explainChange id (gens k) s).1

/-- Embedding of handleFileSave: snapshot the pending changes whose path
matches the saved document and explain each sequentially. -/
def handleFileSaveCore (fp : List Char) (gens : Nat → Except Unit (List Char))
    (s : TrackerState) : TrackerState :=
  let ids := (s.changes.filter
    (fun c => c.status == Status.pending && c.filePath == fp)).map (fun c => c.id)
  runExplainAll gens ids 0 s

/-- Save events reach handleFileSave as long as the save watcher
subscription is alive; the source never disposes it once startTracking has
pushed it onto the extension's subscription list. -/
def onSaveEvent (fp : List Char) (gens : Nat → Except Unit (List Char))
    (s : TrackerState) : TrackerState :=
  if s.saveListenerSubscribed then handleFileSaveCore fp gens s else s

/-- Embedding of clear: empties the global change map and the active
journal's change list, leaving session boundaries untouched. -/
def clearChanges (s : TrackerState) : TrackerState :=
  { s with
    changes := [],
    currentJournal := s.currentJournal.map (fun j => { j with changes := [] }) }

/-- Embedding of generateJournalSummary's state effect: when an active
journal has at least one explained change and the generator succeeds, the
summary is stored; in every other case the state is unchanged (the source
then merely returns a fallback string). -/
def genSummary (r : Except Unit (List Char)) (s : TrackerState) : TrackerState :=
  match s.currentJournal with
  | none => s
  | some j =>
    if j.changes.isEmpty then s
    else if (j.changes.filter (fun c => c.explanation.isSome)).isEmpty then s
    else
      match r with
      | Except.ok e => { s with currentJournal := some { j with summary := some e } }
      | Except.error _ => s

/-- One observable tracker operation: the public methods of the service,
the two event feeds, timer firing, and the two halves of an asynchronous
explainChange (split at its await point). -/
inductive TrackerOp
  | start (now : Nat)
  | stop (now : Nat)
  | edit (e : EditEvent)
  | fire (now : Nat)
  | save (fp : List Char) (gens : Nat → Except Unit (List Char))
  | explainS (id : Nat)
  | explainF (id : Nat) (r : Except Unit (List Char))
  | explain (id : Nat) (r : Except Unit (List Char))
  | clearAll
  | summarize (r : Except Unit (List Char))

/-- Apply one tracker operation to the state. -/
def applyOp : TrackerOp → TrackerState → TrackerState
  | TrackerOp.start now, s => startTracking now s
  | TrackerOp.stop now, s => (stopTracking now s).1
  | TrackerOp.edit e, s => onEditEvent e s
  | TrackerOp.fire now, s => fireDueTimers now s
  | TrackerOp.save fp gens, s => onSaveEvent fp gens s
  | TrackerOp.explainS id, s => (explainStart id s).1
  | TrackerOp.explainF id r, s => explainFinish id r s
  | TrackerOp.explain id r, s => (explainChange id r s).1
  | TrackerOp.clearAll, s => clearChanges s
  | TrackerOp.summarize r, s => genSummary r s

/-- Apply a sequence of tracker operations, oldest first. -/
def applyOps (ops : List TrackerOp) (s : TrackerState) : TrackerState :=
  ops.foldl (fun st op => applyOp op st) s

/-- The allowed single transitions of the per-change status machine:
pending to explaining, explaining to explained or error, and the retry
transition error to explaining. -/
inductive StatusEdge : Status → Status → Prop
  | startExplain : StatusEdge Status.pending Status.explaining
  | retry : StatusEdge Status.error Status.explaining
  | success : StatusEdge Status.explaining Status.explained
  | failure : StatusEdge Status.explaining Status.error

/-- Reachability along allowed status transitions. -/
def StatusPath : Status → Status → Prop :=
  Relation.ReflTransGen StatusEdge

/-- Simulation property of a state transformer: it never lowers the
fresh-id counter, never resurrects a deleted change, and moves the status
of every existing change (whose id is below the fresh-id counter, as every
id handed out by the tracker is) only along allowed transitions, or
deletes it. -/
def TrackerSim (g : TrackerState → TrackerState) : Prop :=
  ∀ s id, id < s.nextId →
    (s.nextId ≤ (g s).nextId) ∧
    (changeOf s id = none → changeOf (g s) id = none) ∧
    (∀ c, changeOf s id = some c →
      changeOf (g s) id = none ∨
      ∃ c', changeOf (g s) id = some c' ∧ StatusPath c.status c'.status)

/-- Fixture path used by concrete tracker states. -/
def pathATs : List Char := "a.ts".toList

/-- Fixture change text used by concrete tracker states. -/
def sampleCode : List Char := "hello world\nsecond line".toList

/-- Fixture pending change. -/
def wChange : CodeChange :=
  { id := 0, timestamp := 5, filePath := pathATs, changeType := ChangeType.added,
    startLine := 1, endLine := 2, code := sampleCode, explanation := none,
    status := Status.pending, source := Source.manual }

/-- Fixture tracker state holding one pending change. -/
def wTracker : TrackerState :=
  { changes := [wChange], currentJournal := none, editListenerActive := false,
    saveListenerSubscribed := false, pendingChanges := [], isTracking := false, nextId := 1 }

/-- Fixture change sitting in the error status. -/
def wChangeErr : CodeChange :=
  { wChange with id := 1, status := Status.error }

/-- Fixture tracker state holding one errored change. -/
def wTrackerErr : TrackerState :=
  { changes := [wChangeErr], currentJournal := none, editListenerActive := false,
    saveListenerSubscribed := false, pendingChanges := [], isTracking := false, nextId := 2 }

/-- Drive a list of edit events through the tracker in time order: before
each event every timer due by that event's time fires, and at the end
every remaining timer fires. -/
def runEdits (s : TrackerState) (es : List EditEvent) : TrackerState :=
  flushTimers (es.foldl (fun st e => onEditEvent e (fireDueTimers e.time st)) s)

/-- Fixture qualifying edit event. -/
def wEdit1 : EditEvent :=
  { time := 100, scheme := "file".toList, filePath := pathATs, line0 := 4,
    text := "first long text\nline".toList }

/-- Fixture qualifying edit event at the same key, 1400 ms later. -/
def wEdit2 : EditEvent :=
  { time := 1500, scheme := "file".toList, filePath := pathATs, line0 := 4,
    text := "second long text\nline".toList }

/-- Trace state: tracking started at time 0. -/
def leakS1 : TrackerState := startTracking 0 {}

/-- Trace state: one qualifying edit observed. -/
def leakS2 : TrackerState := onEditEvent wEdit1 leakS1

/-- Trace state: the debounce timer has fired, one pending change exists. -/
def leakS3 : TrackerState := fireDueTimers 2100 leakS2

/-- Trace state: tracking stopped at time 3000. -/
def leakS4 : TrackerState := (stopTracking 3000 leakS3).1

/-- Trace state: a save event for the same file arrives after stop, with a
generator that would succeed. -/
def leakS5 : TrackerState := onSaveEvent pathATs (fun _ => Except.ok ("done".toList)) leakS4

/-! The tour playback side: the webview provider (VoyaWebviewProvider in
the source) and the webview application's state. -/

/-- Explanation detail levels. -/
inductive DetailLevel
  | tldr
  | general
  | detailed
  | extreme_detail
deriving DecidableEq, Repr

/-- Cached explanations at each detail level (StepExplanations in the
source). -/
structure StepExplanations where
  tldr : Option (List Char) := none
  general : Option (List Char) := none
  detailed : Option (List Char) := none
  extreme_detail : Option (List Char) := none
deriving DecidableEq, Repr

/-- Read the entry of one detail level. -/
def StepExplanations.get (ex : StepExplanations) : DetailLevel → Option (List Char)
  | DetailLevel.tldr => ex.tldr
  | DetailLevel.general => ex.general
  | DetailLevel.detailed => ex.detailed
  | DetailLevel.extreme_detail => ex.extreme_detail

/-- Write the entry of one detail level, leaving the others alone. -/
def StepExplanations.set (ex : StepExplanations) (l : DetailLevel) (v : List Char) :
    StepExplanations :=
  match l with
  | DetailLevel.tldr => { ex with tldr := some v }
  | DetailLevel.general => { ex with general := some v }
  | DetailLevel.detailed => { ex with detailed := some v }
  | DetailLevel.extreme_detail => { ex with extreme_detail := some v }

/-- Content of one step. -/
structure StepContent where
  summary : List Char := []
  explanation : List Char
  explanations : Option StepExplanations := none
  translation : Option (List Char) := none
deriving DecidableEq, Repr

/-- One step of a tour (VoyaStep in the source). -/
structure VoyaStep where
  stepIndex : Nat
  filePath : List Char
  startLine : Nat
  endLine : Nat
  content : StepContent
  codeSnippet : Option (List Char) := none
deriving DecidableEq, Repr

/-- A tour (VoyaTour in the source). -/
structure VoyaTour where
  id : List Char
  title : List Char
  createdAt : List Char
  steps : List VoyaStep
deriving DecidableEq, Repr

/-- Messages from the extension host to the webview that the modeled
provider paths emit. -/
inductive ExtMsg
  | tourLoaded (t : VoyaTour)
  | stepChanged (i : Nat)
  | playbackStateChanged (p : Bool)
  | deepenStarted (i : Int)
  | deepenComplete (i : Int) (l : DetailLevel) (e : List Char)
  | error (m : List Char)
deriving DecidableEq, Repr

/-- State owned by the webview provider. -/
structure ProviderState where
  currentTour : Option VoyaTour := none
  currentStepIndex : Nat := 0
deriving DecidableEq, Repr

/-- JS array indexing with an arbitrary integer index: negative or
past-the-end indices yield undefined. -/
def stepsGet (t : VoyaTour) (i : Int) : Option VoyaStep :=
  if i < 0 then none else t.steps[i.toNat]?

/-- Error text sent on a failed deepen request. -/
def errMsgText : List Char := "Failed to generate explanation. Please try again.".toList

/-- The cached entry of a step at a level, as read by the provider's
cache-first check and written by its success path. -/
def cachedExplanation (step : VoyaStep) (l : DetailLevel) : Option (List Char) :=
  step.content.explanations.bind (fun ex => ex.get l)

/-- The step as updated by a successful deepen: the requested level is
written into the step's explanation map, which is created if absent; a
first write for a step never clobbers other levels. -/
def deepenedStep (step : VoyaStep) (l : DetailLevel) (e : List Char) : VoyaStep :=
  { step with content := { step.content with
      explanations := some ((step.content.explanations.getD {}).set l e) } }

/-- The tour as updated by a successful deepen at one step. -/
def deepenedTour (t : VoyaTour) (i : Int) (step : VoyaStep) (l : DetailLevel)
    (e : List Char) : VoyaTour :=
  { t with steps := t.steps.set i.toNat (deepenedStep step l e) }

/-- Cache-miss path of handleDeepenRequest: notify start, consult the
generator; on success write the level into the step's explanation map
(creating it if absent), store the updated tour, persist it (a failing
save is caught by the same handler and reported like a generator failure,
after the cache write), and report completion; on generator failure
report the generic error with the state untouched. The boolean reports
whether the generator was invoked. -/
def deepenMiss (gen : Except Unit (List Char)) (saveOk : Except Unit Unit) (i : Int)
    (l : DetailLevel) (s : ProviderState) (t : VoyaTour) (step : VoyaStep) :
    ProviderState × List ExtMsg × Bool :=
  match gen with
  | Except.error _ => (s, [ExtMsg.deepenStarted i, ExtMsg.error errMsgText], true)
  | Except.ok e =>
    let s2 := { s with currentTour := some (deepenedTour t i step l e) }
    match saveOk with
    | Except.ok _ => (s2, [ExtMsg.deepenStarted i, ExtMsg.deepenComplete i l e], true)
    | Except.error _ => (s2, [ExtMsg.deepenStarted i, ExtMsg.error errMsgText], true)

/-- Embedding of handleDeepenRequest: silently ignore requests with no
tour or an out-of-range step; yield a truthy cached entry immediately with
no generator call; otherwise take the miss path. -/
def handleDeepenRequest (gen : Except Unit (List Char)) (saveOk : Except Unit Unit) (i : Int)
    (l : DetailLevel) (s : ProviderState) : ProviderState × List ExtMsg × Bool :=
  match s.currentTour with
  | none => (s, [], false)
  | some t =>
    match stepsGet t i with
    | none => (s, [], false)
    | some step =>
      match cachedExplanation step l with
      | some e =>
        if e.isEmpty then deepenMiss gen saveOk i l s t step
        else (s, [ExtMsg.deepenComplete i l e], false)
      | none => deepenMiss gen saveOk i l s t step

/-- Embedding of goToStep: no-op with no tour, otherwise clamp the index
into the step range and announce the step change. -/
def goToStep (i : Int) (s : ProviderState) : ProviderState × List ExtMsg :=
  match s.currentTour with
  | none => (s, [])
  | some t =>
    let maxIndex : Int := (t.steps.length : Int) - 1
    let idx := (max 0 (min i maxIndex)).toNat
    ({ s with currentStepIndex := idx }, [ExtMsg.stepChanged idx])

/-- State of the webview application (App in the source), keeping the
fields the claims concern: the active tour, current step, loading flag,
preferred detail level and the per-step deepened-explanation cache. -/
structure AppState where
  activeTour : Option VoyaTour := none
  currentStepIndex : Nat := 0
  isPlaying : Bool := false
  isLoadingDeepen : Bool := false
  detailLevel : DetailLevel := DetailLevel.general
  deepened : List (Int × StepExplanations) := []
deriving DecidableEq, Repr

/-- Lookup of the deepened-explanation record for one step index. -/
def lookupDeepened (l : List (Int × StepExplanations)) (i : Int) : Option StepExplanations :=
  (l.find? (fun kv => kv.1 == i)).map (fun kv => kv.2)

/-- Functional update of the deepened-explanation record of one step,
as the object-spread update of the source reducer. -/
def setDeepened (l : List (Int × StepExplanations)) (i : Int) (lvl : DetailLevel)
    (e : List Char) : List (Int × StepExplanations) :=
  (i, ((lookupDeepened l i).getD {}).set lvl e) :: l.filter (fun kv => !(kv.1 == i))

/-- The webview application's message reducer (the onMessage switch of
App in the source). -/
def applyMsg (a : AppState) (m : ExtMsg) : AppState :=
  match m with
  | ExtMsg.tourLoaded t =>
    { a with
      activeTour := some t,
      deepened := [],
      currentStepIndex := 0,
      isPlaying := false,
      isLoadingDeepen := false }
  | ExtMsg.stepChanged i => { a with currentStepIndex := i }
  | ExtMsg.playbackStateChanged p => { a with isPlaying := p }
  | ExtMsg.deepenStarted _ => { a with isLoadingDeepen := true }
  | ExtMsg.deepenComplete i l e =>
    { a with isLoadingDeepen := false, deepened := setDeepened a.deepened i l e }
  | ExtMsg.error _ => { a with isLoadingDeepen := false }

/-- JS truthiness of an optional string: present and nonempty. -/
def truthy (o : Option (List Char)) : Bool :=
  match o with
  | some c => !c.isEmpty
  | none => false

/-- The deepened-cache entry consulted first by getCurrentExplanation. -/
def deepCached (a : AppState) : Option (List Char) :=
  (lookupDeepened a.deepened (a.currentStepIndex : Int)).bind
    (fun ex => ex.get a.detailLevel)

/-- Embedding of getCurrentExplanation of App: empty text with no tour or
no step; otherwise the first truthy value among the locally deepened
cache entry, the step's embedded explanations entry, and the step's
default explanation. -/
def getCurrentExplanation (a : AppState) : List Char :=
  match a.activeTour with
  | none => []
  | some t =>
    match t.steps[a.currentStepIndex]? with
    | none => []
    | some step =>
      let cached := deepCached a
      if truthy cached then cached.getD []
      else
        let emb := step.content.explanations.bind (fun ex => ex.get a.detailLevel)
        if truthy emb then emb.getD []
        else step.content.explanation

/-- Fixture step with default explanation only. -/
def wStep (k : Nat) : VoyaStep :=
  { stepIndex := k, filePath := pathATs, startLine := 1, endLine := 2,
    content := { explanation := "C".toList } }

/-- Fixture five-step tour. -/
def wTour5 : VoyaTour :=
  { id := "tour-1".toList, title := "Tour".toList, createdAt := "now".toList,
    steps := [wStep 0, wStep 1, wStep 2, wStep 3, wStep 4] }

/-- Fixture provider state with the five-step tour loaded. -/
def wProv5 : ProviderState :=
  { currentTour := some wTour5, currentStepIndex := 0 }

/-- Fixture step carrying an embedded detailed explanation and a default
one. -/
def wStepBC : VoyaStep :=
  { stepIndex := 0, filePath := pathATs, startLine := 1, endLine := 2,
    content := { explanation := "C".toList,
                 explanations := some { detailed := some ("B".toList) } } }

/-- Fixture one-step tour around that step. -/
def wTourBC : VoyaTour :=
  { id := "tour-2".toList, title := "Tour".toList, createdAt := "now".toList,
    steps := [wStepBC] }

/-- Fixture app state whose deepened cache holds an empty string for the
current step and level. -/
def wAppEmptyCache : AppState :=
  { activeTour := some wTourBC, currentStepIndex := 0, isPlaying := false,
    isLoadingDeepen := false, detailLevel := DetailLevel.detailed,
    deepened := [(0, { detailed := some [] })] }

/-- Fixture app state with a nonempty cached detailed entry. -/
def wAppA : AppState :=
  { activeTour := some wTourBC, currentStepIndex := 0, isPlaying := false,
    isLoadingDeepen := false, detailLevel := DetailLevel.detailed,
    deepened := [(0, { detailed := some ("A".toList) })] }

/-- Fixture app state with no cached entry. -/
def wAppB : AppState :=
  { activeTour := some wTourBC, currentStepIndex := 0, isPlaying := false,
    isLoadingDeepen := false, detailLevel := DetailLevel.detailed, deepened := [] }

/-- Fixture app state with neither a cached nor an embedded entry. -/
def wAppC : AppState :=
  { activeTour := some wTour5, currentStepIndex := 0, isPlaying := false,
    isLoadingDeepen := false, detailLevel := DetailLevel.detailed, deepened := [] }

/-! Theorems. -/

/-- Claim C1: the classifier answers agent if and only if the text has at
least 3 lines, matches one of the listed code patterns, has balanced curly
brace counts, and has either at least 2 statement-terminated lines or at
least 5 lines; in every other case it answers manual. -/
theorem classifySource_agent_iff (text : List Char) :
    (classifySource text = Source.agent ↔
      (3 ≤ (splitLines text).length ∧ hasCodePattern text = true ∧
       text.count braceOpen = text.count braceClose ∧
       (2 ≤ stmtLineCount text ∨ 5 ≤ (splitLines text).length))) ∧
    (classifySource text ≠ Source.agent → classifySource text = Source.manual) := by
  have hiff : detectAgentChange text = true ↔
      (3 ≤ (splitLines text).length ∧ hasCodePattern text = true ∧
       text.count braceOpen = text.count braceClose ∧
       (2 ≤ stmtLineCount text ∨ 5 ≤ (splitLines text).length)) := by
    unfold detectAgentChange
    by_cases h : (splitLines text).length < 3
    · simp only [if_pos h]
      constructor
      · intro hc
        exact absurd hc (by simp)
      · rintro ⟨h3, -, -, -⟩
        omega
    · simp only [if_neg h, Bool.and_eq_true, Bool.or_eq_true, decide_eq_true_eq,
        beq_iff_eq]
      constructor
      · rintro ⟨⟨hp, hb⟩, hs⟩
        exact ⟨by omega, hp, hb, hs⟩
      · rintro ⟨-, hp, hb, hs⟩
        exact ⟨⟨hp, hb⟩, hs⟩
  have hag : classifySource text = Source.agent ↔ detectAgentChange text = true := by
    unfold classifySource
    split
    · simp_all
    · simp_all
  refine ⟨hag.trans hiff, ?_⟩
  intro h
  by_cases hd : detectAgentChange text = true
  · exact absurd (by simp [classifySource, hd]) h
  · simp [classifySource, hd]

/-- Sanity check from the spec: a three-line function body classifies as
agent. -/
example :
    classifySource ("function foo() \x7b\n  return 1;\n\x7d".toList) = Source.agent := by
  decide

/-- Sanity check from the spec: three lines of prose with no braces
classify as manual. -/
example :
    classifySource ("hello there\nthis is prose\nno braces here".toList) = Source.manual := by
  decide

/-- A transformer that keeps the change list (and does not lower the
counter) is a simulation. -/
theorem trackerSim_of_changes_eq (g : TrackerState → TrackerState)
    (h : ∀ s, (g s).changes = s.changes ∧ s.nextId ≤ (g s).nextId) : TrackerSim g := by
  intro s id _
  have hcf : changeOf (g s) id = changeOf s id := by
    unfold changeOf
    rw [(h s).1]
  refine ⟨(h s).2, ?_, ?_⟩
  · intro hn
    rw [hcf]
    exact hn
  · intro c hc
    exact Or.inr ⟨c, by rw [hcf]; exact hc, Relation.ReflTransGen.refl⟩

/-- Simulations compose. -/
theorem TrackerSim.comp {g1 g2 : TrackerState → TrackerState}
    (h1 : TrackerSim g1) (h2 : TrackerSim g2) : TrackerSim (fun s => g2 (g1 s)) := by
  intro s id hid
  obtain ⟨hn1, hnone1, hsome1⟩ := h1 s id hid
  obtain ⟨hn2, hnone2, hsome2⟩ := h2 (g1 s) id (lt_of_lt_of_le hid hn1)
  refine ⟨le_trans hn1 hn2, ?_, ?_⟩
  · intro h
    exact hnone2 (hnone1 h)
  · intro c hc
    rcases hsome1 c hc with h | ⟨c', hc', hp⟩
    · exact Or.inl (hnone2 h)
    · rcases hsome2 c' hc' with h | ⟨c'', hc'', hp2⟩
      · exact Or.inl h
      · exact Or.inr ⟨c'', hc'', hp.trans hp2⟩

/-- The identity is a simulation. -/
theorem trackerSim_id : TrackerSim (fun s => s) := by
  intro s id _
  exact ⟨le_refl _, fun h => h, fun c hc => Or.inr ⟨c, hc, Relation.ReflTransGen.refl⟩⟩

/-- Folding simulation steps over a list is a simulation. -/
theorem trackerSim_foldl {α : Type} (step : TrackerState → α → TrackerState)
    (h : ∀ x, TrackerSim (fun s => step s x)) (l : List α) :
    TrackerSim (fun s => l.foldl step s) := by
  induction l with
  | nil => exact trackerSim_id
  | cons x xs ih => exact TrackerSim.comp (h x) ih

/-- Updating by id commutes with lookup at that id, for id-preserving
updates. -/
theorem find?_map_upd (l : List CodeChange) (id : Nat) (f : CodeChange → CodeChange)
    (hf : ∀ c, (f c).id = c.id) :
    (l.map (fun c => if c.id == id then f c else c)).find? (fun c => c.id == id) =
      (l.find? (fun c => c.id == id)).map f := by
  induction l with
  | nil => rfl
  | cons a l ih =>
    by_cases h : a.id = id
    · have hb : (a.id == id) = true := by simpa using h
      have hb2 : ((f a).id == id) = true := by
        rw [hf a]
        exact hb
      simp only [List.map_cons]
      rw [if_pos hb, List.find?_cons_of_pos (p := fun c : CodeChange => c.id == id) _ hb2,
        List.find?_cons_of_pos (p := fun c : CodeChange => c.id == id) _ hb]
      rfl
    · have hb : ¬((a.id == id) = true) := by simpa using h
      simp only [List.map_cons]
      rw [if_neg hb, List.find?_cons_of_neg (p := fun c : CodeChange => c.id == id) _ hb,
        List.find?_cons_of_neg (p := fun c : CodeChange => c.id == id) _ hb]
      exact ih

/-- Updating one id leaves lookups at other ids unchanged, for
id-preserving updates. -/
theorem find?_map_upd_ne (l : List CodeChange) (id id' : Nat) (f : CodeChange → CodeChange)
    (hf : ∀ c, (f c).id = c.id) (hne : id' ≠ id) :
    (l.map (fun c => if c.id == id then f c else c)).find? (fun c => c.id == id') =
      l.find? (fun c => c.id == id') := by
  induction l with
  | nil => rfl
  | cons a l ih =>
    by_cases h : a.id = id
    · have hb : (a.id == id) = true := by simpa using h
      have h1 : ¬((a.id == id') = true) := by
        simp only [beq_iff_eq]
        omega
      have h2 : ¬(((f a).id == id') = true) := by
        rw [hf a]
        exact h1
      simp only [List.map_cons]
      rw [if_pos hb, List.find?_cons_of_neg (p := fun c : CodeChange => c.id == id') _ h2,
        List.find?_cons_of_neg (p := fun c : CodeChange => c.id == id') _ h1]
      exact ih
    · have hb : ¬((a.id == id) = true) := by simpa using h
      simp only [List.map_cons]
      rw [if_neg hb]
      by_cases h' : a.id = id'
      · have hb' : (a.id == id') = true := by simpa using h'
        rw [List.find?_cons_of_pos (p := fun c : CodeChange => c.id == id') _ hb',
          List.find?_cons_of_pos (p := fun c : CodeChange => c.id == id') _ hb']
      · rw [List.find?_cons_of_neg (p := fun c : CodeChange => c.id == id') _ (by simp [h']),
          List.find?_cons_of_neg (p := fun c : CodeChange => c.id == id') _ (by simp [h'])]
        exact ih

/-- Lookup after updateChange at the updated id. -/
theorem changeOf_updateChange_self (id : Nat) (f : CodeChange → CodeChange)
    (hf : ∀ c, (f c).id = c.id) (s : TrackerState) :
    changeOf (updateChange id f s) id = (changeOf s id).map f := by
  unfold changeOf updateChange
  exact find?_map_upd s.changes id f hf

/-- Lookup after updateChange at another id. -/
theorem changeOf_updateChange_ne (id id' : Nat) (f : CodeChange → CodeChange)
    (hf : ∀ c, (f c).id = c.id) (hne : id' ≠ id) (s : TrackerState) :
    changeOf (updateChange id f s) id' = changeOf s id' := by
  unfold changeOf updateChange
  exact find?_map_upd_ne s.changes id id' f hf hne

/-- The fresh-id counter is untouched by updateChange. -/
theorem nextId_updateChange (id : Nat) (f : CodeChange → CodeChange) (s : TrackerState) :
    (updateChange id f s).nextId = s.nextId := rfl

/-- Appending a freshly created change does not disturb lookups of
already-issued ids. -/
theorem changeOf_processChange (now : Nat) (fp : List Char) (l0 : Nat) (tx : List Char)
    (s : TrackerState) (id : Nat) (hid : id < s.nextId) :
    changeOf (processChange now fp l0 tx s) id = changeOf s id := by
  unfold changeOf processChange
  rw [List.find?_append]
  cases h : s.changes.find? (fun c => c.id == id) with
  | some a => rfl
  | none =>
    have hb : ¬((s.nextId == id) = true) := by
      simp only [beq_iff_eq]
      omega
    rw [Option.none_or, List.find?_cons_of_neg _ (by exact hb)]
    rfl

/-- The fresh-id counter after processChange. -/
theorem nextId_processChange (now : Nat) (fp : List Char) (l0 : Nat) (tx : List Char)
    (s : TrackerState) : (processChange now fp l0 tx s).nextId = s.nextId + 1 := rfl

/-- Folding processChange over fired timers preserves the lookup of every
already-issued id and never lowers the counter. -/
theorem changeOf_fold_processChange
    (l : List ((List Char × Nat) × PendingTimer)) (s : TrackerState) (id : Nat)
    (hid : id < s.nextId) :
    changeOf (l.foldl (fun st kv => processChange kv.2.fireAt kv.1.1 kv.2.line0 kv.2.text st) s)
        id = changeOf s id ∧
    s.nextId ≤
      (l.foldl (fun st kv => processChange kv.2.fireAt kv.1.1 kv.2.line0 kv.2.text st) s).nextId := by
  induction l generalizing s with
  | nil => exact ⟨rfl, le_refl _⟩
  | cons kv l ih =>
    have h1 := changeOf_processChange kv.2.fireAt kv.1.1 kv.2.line0 kv.2.text s id hid
    have hnext : (processChange kv.2.fireAt kv.1.1 kv.2.line0 kv.2.text s).nextId = s.nextId + 1 :=
      rfl
    have hid2 : id < (processChange kv.2.fireAt kv.1.1 kv.2.line0 kv.2.text s).nextId := by
      rw [hnext]
      omega
    obtain ⟨ha, hb⟩ := ih (processChange kv.2.fireAt kv.1.1 kv.2.line0 kv.2.text s) hid2
    refine ⟨by rw [List.foldl_cons, ha, h1], ?_⟩
    rw [List.foldl_cons]
    omega

/-- Firing due timers is a simulation (it only creates fresh pending
changes). -/
theorem trackerSim_fire (now : Nat) : TrackerSim (fireDueTimers now) := by
  intro s id hid
  unfold fireDueTimers
  have hbase :
      changeOf { s with pendingChanges :=
        s.pendingChanges.filter (fun kv => !decide (kv.2.fireAt ≤ now)) } id = changeOf s id := rfl
  obtain ⟨ha, hb⟩ := changeOf_fold_processChange
    (s.pendingChanges.filter (fun kv => decide (kv.2.fireAt ≤ now)))
    { s with pendingChanges := s.pendingChanges.filter (fun kv => !decide (kv.2.fireAt ≤ now)) }
    id hid
  refine ⟨hb, ?_, ?_⟩
  · intro hn
    rw [ha, hbase]
    exact hn
  · intro c hc
    exact Or.inr ⟨c, by rw [ha, hbase]; exact hc, Relation.ReflTransGen.refl⟩

/-- Starting an explanation attempt is a simulation: it moves a pending or
errored change to explaining and touches nothing else. -/
theorem trackerSim_explainStart (id0 : Nat) : TrackerSim (fun s => (explainStart id0 s).1) := by
  intro s id hid
  dsimp only
  unfold explainStart
  cases hc0 : changeOf s id0 with
  | none =>
    exact ⟨le_refl _, fun h => h, fun c hc => Or.inr ⟨c, hc, Relation.ReflTransGen.refl⟩⟩
  | some c0 =>
    by_cases hst : c0.status = Status.explaining ∨ c0.status = Status.explained
    · simp only [if_pos hst]
      exact ⟨le_refl _, fun h => h, fun c hc => Or.inr ⟨c, hc, Relation.ReflTransGen.refl⟩⟩
    · simp only [if_neg hst]
      have hf : ∀ c : CodeChange, ({ c with status := Status.explaining } : CodeChange).id = c.id :=
        fun _ => rfl
      refine ⟨le_of_eq (nextId_updateChange _ _ _).symm, ?_, ?_⟩
      · intro hn
        by_cases hii : id = id0
        · rw [hii] at hn
          rw [hn] at hc0
          cases hc0
        · rw [changeOf_updateChange_ne id0 id _ hf hii]
          exact hn
      · intro c hc
        by_cases hii : id = id0
        · subst hii
          have hcc : c = c0 := by
            rw [hc] at hc0
            exact Option.some_inj.mp hc0
          subst hcc
          refine Or.inr ⟨{ c with status := Status.explaining }, ?_, ?_⟩
          · rw [changeOf_updateChange_self id _ hf, hc]
            rfl
          · have hpe : c.status = Status.pending ∨ c.status = Status.error := by
              cases h : c.status
              · exact Or.inl rfl
              · exact absurd (Or.inl h) hst
              · exact absurd (Or.inr h) hst
              · exact Or.inr rfl
            rcases hpe with h | h <;> rw [h] <;>
              exact Relation.ReflTransGen.single (by constructor)
        · exact Or.inr ⟨c, by rw [changeOf_updateChange_ne id0 id _ hf hii]; exact hc,
            Relation.ReflTransGen.refl⟩

/-- Finishing an explanation attempt is a simulation: it moves an
explaining change to explained or error. -/
theorem trackerSim_explainFinish (id0 : Nat) (r : Except Unit (List Char)) :
    TrackerSim (fun s => explainFinish id0 r s) := by
  intro s id hid
  dsimp only
  unfold explainFinish
  cases hc0 : changeOf s id0 with
  | none =>
    exact ⟨le_refl _, fun h => h, fun c hc => Or.inr ⟨c, hc, Relation.ReflTransGen.refl⟩⟩
  | some c0 =>
    by_cases hst : c0.status = Status.explaining
    · simp only [if_pos hst]
      cases r with
      | ok e =>
        have hf : ∀ c : CodeChange,
            ({ c with explanation := some e, status := Status.explained } : CodeChange).id = c.id :=
          fun _ => rfl
        refine ⟨le_refl _, ?_, ?_⟩
        · intro hn
          by_cases hii : id = id0
          · rw [hii] at hn
            rw [hn] at hc0
            cases hc0
          · rw [changeOf_updateChange_ne id0 id _ hf hii]
            exact hn
        · intro c hc
          by_cases hii : id = id0
          · subst hii
            have hcc : c = c0 := by
              rw [hc] at hc0
              exact Option.some_inj.mp hc0
            subst hcc
            refine Or.inr ⟨{ c with explanation := some e, status := Status.explained },
              by rw [changeOf_updateChange_self id _ hf, hc]; rfl, ?_⟩
            rw [hst]
            exact Relation.ReflTransGen.single (by constructor)
          · exact Or.inr ⟨c, by rw [changeOf_updateChange_ne id0 id _ hf hii]; exact hc,
              Relation.ReflTransGen.refl⟩
      | error u =>
        have hf : ∀ c : CodeChange,
            ({ c with status := Status.error } : CodeChange).id = c.id := fun _ => rfl
        refine ⟨le_refl _, ?_, ?_⟩
        · intro hn
          by_cases hii : id = id0
          · rw [hii] at hn
            rw [hn] at hc0
            cases hc0
          · rw [changeOf_updateChange_ne id0 id _ hf hii]
            exact hn
        · intro c hc
          by_cases hii : id = id0
          · subst hii
            have hcc : c = c0 := by
              rw [hc] at hc0
              exact Option.some_inj.mp hc0
            subst hcc
            refine Or.inr ⟨{ c with status := Status.error },
              by rw [changeOf_updateChange_self id _ hf, hc]; rfl, ?_⟩
            rw [hst]
            exact Relation.ReflTransGen.single (by constructor)
          · exact Or.inr ⟨c, by rw [changeOf_updateChange_ne id0 id _ hf hii]; exact hc,
              Relation.ReflTransGen.refl⟩
    · simp only [if_neg hst]
      exact ⟨le_refl _, fun h => h, fun c hc => Or.inr ⟨c, hc, Relation.ReflTransGen.refl⟩⟩

/-- A full explainChange run is a simulation. -/
theorem trackerSim_explainChange (id0 : Nat) (r : Except Unit (List Char)) :
    TrackerSim (fun s => (explainChange id0 r s).1) := by
  intro s id hid
  dsimp only
  by_cases h2 : (explainStart id0 s).2
  · have he : (explainChange id0 r s).1 = explainFinish id0 r (explainStart id0 s).1 := by
      unfold explainChange
      rw [if_pos h2]
    have := TrackerSim.comp (trackerSim_explainStart id0) (trackerSim_explainFinish id0 r) s id hid
    rw [he]
    exact this
  · have he : (explainChange id0 r s).1 = (explainStart id0 s).1 := by
      unfold explainChange
      rw [if_neg h2]
    rw [he]
    exact trackerSim_explainStart id0 s id hid

/-- Sequential explanation of a list of ids is a simulation. -/
theorem trackerSim_runExplainAll (gens : Nat → Except Unit (List Char)) (ids : List Nat)
    (k : Nat) : TrackerSim (fun s => runExplainAll gens ids k s) := by
  induction ids generalizing k with
  | nil => exact trackerSim_id
  | cons id0 rest ih =>
    have h := TrackerSim.comp (trackerSim_explainChange id0 (gens k)) (ih (k + 1))
    exact h

/-- Clearing the change map is a simulation (every change is deleted). -/
theorem trackerSim_clear : TrackerSim clearChanges := by
  intro s id _
  exact ⟨le_refl _, fun _ => rfl, fun c _ => Or.inl rfl⟩

/-- Every tracker operation is a simulation. -/
theorem trackerSim_applyOp (op : TrackerOp) : TrackerSim (applyOp op) := by
  cases op with
  | start now =>
    refine trackerSim_of_changes_eq _ (fun s => ?_)
    show (startTracking now s).changes = s.changes ∧ s.nextId ≤ (startTracking now s).nextId
    unfold startTracking
    by_cases h : s.isTracking = true
    · rw [if_pos h]
      exact ⟨rfl, le_refl _⟩
    · rw [if_neg h]
      exact ⟨rfl, Nat.le_succ _⟩
  | stop now =>
    refine trackerSim_of_changes_eq _ (fun s => ?_)
    show (stopTracking now s).1.changes = s.changes ∧ s.nextId ≤ (stopTracking now s).1.nextId
    unfold stopTracking
    by_cases h : s.isTracking = true
    · rw [if_pos h]
      dsimp only
      cases s.currentJournal
      · exact ⟨rfl, le_refl _⟩
      · exact ⟨rfl, le_refl _⟩
    · rw [if_neg h]
      exact ⟨rfl, le_refl _⟩
  | edit e =>
    refine trackerSim_of_changes_eq _ (fun s => ?_)
    show (onEditEvent e s).changes = s.changes ∧ s.nextId ≤ (onEditEvent e s).nextId
    unfold onEditEvent handleDocumentChange
    by_cases h1 : s.editListenerActive = true
    · rw [if_pos h1]
      by_cases h2 : qualifiesEdit e = true
      · rw [if_pos h2]
        exact ⟨rfl, le_refl _⟩
      · rw [if_neg h2]
        exact ⟨rfl, le_refl _⟩
    · rw [if_neg h1]
      exact ⟨rfl, le_refl _⟩
  | fire now => exact trackerSim_fire now
  | save fp gens =>
    intro s id hid
    show _
    by_cases h : s.saveListenerSubscribed = true
    · have hrun := trackerSim_runExplainAll gens
        ((s.changes.filter (fun c => c.status == Status.pending && c.filePath == fp)).map
          (fun c => c.id)) 0 s id hid
      dsimp only [applyOp]
      unfold onSaveEvent
      rw [if_pos h]
      exact hrun
    · dsimp only [applyOp]
      unfold onSaveEvent
      rw [if_neg h]
      exact trackerSim_id s id hid
  | explainS id0 => exact trackerSim_explainStart id0
  | explainF id0 r => exact trackerSim_explainFinish id0 r
  | explain id0 r => exact trackerSim_explainChange id0 r
  | clearAll => exact trackerSim_clear
  | summarize r =>
    refine trackerSim_of_changes_eq _ (fun s => ?_)
    show (genSummary r s).changes = s.changes ∧ s.nextId ≤ (genSummary r s).nextId
    unfold genSummary
    cases s.currentJournal with
    | none => exact ⟨rfl, le_refl _⟩
    | some j =>
      dsimp only
      by_cases h1 : j.changes.isEmpty = true
      · rw [if_pos h1]
        exact ⟨rfl, le_refl _⟩
      · rw [if_neg h1]
        by_cases h2 : (j.changes.filter (fun c => c.explanation.isSome)).isEmpty = true
        · rw [if_pos h2]
          exact ⟨rfl, le_refl _⟩
        · rw [if_neg h2]
          cases r with
          | ok e => exact ⟨rfl, le_refl _⟩
          | error u => exact ⟨rfl, le_refl _⟩

/-- No allowed transition leaves the explained status. -/
theorem statusPath_explained_eq {x : Status} (h : StatusPath Status.explained x) :
    x = Status.explained := by
  rcases Relation.ReflTransGen.cases_head h with h | ⟨c, he, _⟩
  · exact h.symm
  · cases he

/-- Every sequence of operations moves statuses along the transition
graph. -/
theorem trackerSim_applyOps (ops : List TrackerOp) : TrackerSim (applyOps ops) := by
  have h := trackerSim_foldl (fun st op => applyOp op st) (fun op => trackerSim_applyOp op) ops
  exact h

/-- Claim C2: over any sequence of tracker operations, a change's status
only moves along pending to explaining to explained or error, with error
to explaining as the sole backward transition, and explained is terminal.
The hypothesis that the id is below the fresh-id counter holds for every
id the tracker ever issues. -/
theorem tracker_status_monotone (ops : List TrackerOp) (s : TrackerState) (id : Nat)
    (st st' : Status) (hid : id < s.nextId)
    (h1 : statusOf s id = some st) (h2 : statusOf (applyOps ops s) id = some st') :
    StatusPath st st' ∧ (st = Status.explained → st' = Status.explained) := by
  obtain ⟨c, hc, hcs⟩ : ∃ c, changeOf s id = some c ∧ c.status = st := by
    unfold statusOf at h1
    cases hcc : changeOf s id with
    | none =>
      rw [hcc] at h1
      cases h1
    | some c =>
      rw [hcc] at h1
      exact ⟨c, rfl, by simpa using h1⟩
  obtain ⟨-, -, hsome⟩ := trackerSim_applyOps ops s id hid
  rcases hsome c hc with hnone | ⟨c', hc', hp⟩
  · unfold statusOf at h2
    rw [hnone] at h2
    cases h2
  · have hcs' : c'.status = st' := by
      unfold statusOf at h2
      rw [hc'] at h2
      simpa using h2
    subst hcs
    subst hcs'
    exact ⟨hp, fun he => statusPath_explained_eq (he ▸ hp)⟩

/-- Witness for C2: starting an explanation on a concrete pending change
takes it along the allowed pending-to-explaining transition. -/
theorem tracker_status_monotone_witness :
    StatusPath Status.pending Status.explaining ∧
      (Status.pending = Status.explained → Status.explaining = Status.explained) :=
  tracker_status_monotone [TrackerOp.explainS 0] wTracker 0 Status.pending Status.explaining
    (by decide) (by decide) (by decide)

/-- Claim C3: explainChange is a no-op (state unchanged, no generator
attempt) when the id is unknown or the change is already explaining or
explained; an error-status change is eligible and re-attempted; and on
generator failure the status becomes error with the explanation left
unset. The embedding of explainChange is a total function returning the
new state for every generator outcome, which is the never-throws contract. -/
theorem explainChange_guard_spec (s : TrackerState) (id : Nat) (r : Except Unit (List Char)) :
    ((∀ c, changeOf s id = some c →
        c.status = Status.explaining ∨ c.status = Status.explained →
        explainChange id r s = (s, false)) ∧
      (changeOf s id = none → explainChange id r s = (s, false))) ∧
    (∀ c, changeOf s id = some c → c.status = Status.error →
        (explainChange id r s).2 = true) ∧
    (∀ c u, changeOf s id = some c → r = Except.error u →
        (c.status = Status.pending ∨ c.status = Status.error) →
        statusOf (explainChange id r s).1 id = some Status.error ∧
        explanationOf (explainChange id r s).1 id = c.explanation) := by
  refine ⟨⟨?_, ?_⟩, ?_, ?_⟩
  · intro c hc hst
    have hstart : explainStart id s = (s, false) := by
      unfold explainStart
      rw [hc]
      dsimp only
      rw [if_pos hst]
    unfold explainChange
    dsimp only
    rw [hstart]
    rfl
  · intro hn
    have hstart : explainStart id s = (s, false) := by
      unfold explainStart
      rw [hn]
    unfold explainChange
    dsimp only
    rw [hstart]
    rfl
  · intro c hc hst
    have hguard : ¬(c.status = Status.explaining ∨ c.status = Status.explained) := by
      rw [hst]
      rintro (h2 | h2) <;> cases h2
    have hstart : explainStart id s =
        (updateChange id (fun c => { c with status := Status.explaining }) s, true) := by
      unfold explainStart
      rw [hc]
      dsimp only
      rw [if_neg hguard]
    unfold explainChange
    dsimp only
    rw [hstart]
    rfl
  · intro c u hc hr hpe
    subst hr
    have hguard : ¬(c.status = Status.explaining ∨ c.status = Status.explained) := by
      rcases hpe with h | h <;> rw [h] <;> rintro (h2 | h2) <;> cases h2
    have hstart : explainStart id s =
        (updateChange id (fun c => { c with status := Status.explaining }) s, true) := by
      unfold explainStart
      rw [hc]
      dsimp only
      rw [if_neg hguard]
    have hf1 : ∀ c : CodeChange,
        ({ c with status := Status.explaining } : CodeChange).id = c.id := fun _ => rfl
    have hc1 : changeOf (updateChange id (fun c => { c with status := Status.explaining }) s) id =
        some { c with status := Status.explaining } := by
      rw [changeOf_updateChange_self id _ hf1, hc]
      rfl
    have hstep : (explainChange id (Except.error u) s).1 =
        explainFinish id (Except.error u)
          (updateChange id (fun c => { c with status := Status.explaining }) s) := by
      unfold explainChange
      dsimp only
      rw [hstart]
      rfl
    have hfin : explainFinish id (Except.error u)
        (updateChange id (fun c => { c with status := Status.explaining }) s) =
        updateChange id (fun c => { c with status := Status.error })
          (updateChange id (fun c => { c with status := Status.explaining }) s) := by
      unfold explainFinish
      rw [hc1]
      dsimp only
      rw [if_pos rfl]
    have hf2 : ∀ c : CodeChange,
        ({ c with status := Status.error } : CodeChange).id = c.id := fun _ => rfl
    constructor
    · unfold statusOf
      rw [hstep, hfin, changeOf_updateChange_self id _ hf2, hc1]
      rfl
    · unfold explanationOf
      rw [hstep, hfin, changeOf_updateChange_self id _ hf2, hc1]
      rfl

/-- Witness for C3: on a concrete errored change a retry attempt is made,
a failing generator leaves it in error with no explanation, and an unknown
id is a strict no-op. -/
theorem explainChange_guard_spec_witness :
    (explainChange 1 (Except.error ()) wTrackerErr).2 = true ∧
    statusOf (explainChange 1 (Except.error ()) wTrackerErr).1 1 = some Status.error ∧
    explanationOf (explainChange 1 (Except.error ()) wTrackerErr).1 1 = none ∧
    explainChange 99 (Except.error ()) wTrackerErr = (wTrackerErr, false) := by
  obtain ⟨-, hB, hC⟩ := explainChange_guard_spec wTrackerErr 1 (Except.error ())
  obtain ⟨⟨-, hA2⟩, -, -⟩ := explainChange_guard_spec wTrackerErr 99 (Except.error ())
  refine ⟨hB wChangeErr (by decide) (by decide), ?_, ?_, hA2 (by decide)⟩
  · exact (hC wChangeErr () (by decide) rfl (Or.inr (by decide))).1
  · exact (hC wChangeErr () (by decide) rfl (Or.inr (by decide))).2

/-- When no timer is due, firing due timers changes nothing. -/
theorem fireDueTimers_of_none_due (now : Nat) (s : TrackerState)
    (h : ∀ kv ∈ s.pendingChanges, ¬ kv.2.fireAt ≤ now) : fireDueTimers now s = s := by
  unfold fireDueTimers
  have hdue : s.pendingChanges.filter (fun kv => decide (kv.2.fireAt ≤ now)) = [] := by
    apply List.filter_eq_nil_iff.mpr
    intro a ha
    simpa using h a ha
  have hrest : s.pendingChanges.filter (fun kv => !decide (kv.2.fireAt ≤ now)) = s.pendingChanges := by
    apply List.filter_eq_self.mpr
    intro a ha
    simpa using h a ha
  rw [hdue, hrest]
  rfl

/-- A qualifying edit at a key already armed replaces that key's timer
with one capturing the new edit only. -/
theorem handleDocumentChange_replace (e : EditEvent) (s : TrackerState) (t : PendingTimer)
    (hq : qualifiesEdit e = true)
    (hp : s.pendingChanges = [((e.filePath, e.line0), t)]) :
    handleDocumentChange e s = { s with pendingChanges :=
      [((e.filePath, e.line0),
        { fireAt := e.time + DEBOUNCE_MS, line0 := e.line0, text := e.text })] } := by
  unfold handleDocumentChange
  rw [if_pos hq, hp]
  dsimp only
  congr 1
  rw [List.filter_cons]
  simp

/-- A qualifying edit on an empty timer table arms one timer. -/
theorem handleDocumentChange_fresh (e : EditEvent) (s : TrackerState)
    (hq : qualifiesEdit e = true) (hp : s.pendingChanges = []) :
    handleDocumentChange e s = { s with pendingChanges :=
      [((e.filePath, e.line0),
        { fireAt := e.time + DEBOUNCE_MS, line0 := e.line0, text := e.text })] } := by
  unfold handleDocumentChange
  rw [if_pos hq, hp]
  rfl

/-- Claim C4: two qualifying edits at the same (filePath, startLine) key,
the second arriving inside the 2000 ms debounce window of the first,
produce exactly one Change, whose code is the second edit's text only. -/
theorem debounce_second_edit_wins (s : TrackerState) (e1 e2 : EditEvent)
    (hact : s.editListenerActive = true) (hp : s.pendingChanges = [])
    (hq1 : qualifiesEdit e1 = true) (hq2 : qualifiesEdit e2 = true)
    (hkf : e2.filePath = e1.filePath) (hkl : e2.line0 = e1.line0)
    (ht : e1.time ≤ e2.time) (hw : e2.time < e1.time + DEBOUNCE_MS) :
    ∃ c : CodeChange, (runEdits s [e1, e2]).changes = s.changes ++ [c] ∧ c.code = e2.text := by
  have hA : fireDueTimers e1.time s = s := by
    apply fireDueTimers_of_none_due
    rw [hp]
    intro kv hkv
    cases hkv
  have hB : onEditEvent e1 s = { s with pendingChanges :=
      [((e1.filePath, e1.line0),
        { fireAt := e1.time + DEBOUNCE_MS, line0 := e1.line0, text := e1.text })] } := by
    unfold onEditEvent
    rw [if_pos hact]
    exact handleDocumentChange_fresh e1 s hq1 hp
  have hC : fireDueTimers e2.time (onEditEvent e1 s) = onEditEvent e1 s := by
    apply fireDueTimers_of_none_due
    rw [hB]
    intro kv hkv
    simp only [List.mem_singleton] at hkv
    subst hkv
    dsimp only
    omega
  have hrep := handleDocumentChange_replace e2
    { s with pendingChanges :=
      [((e1.filePath, e1.line0),
        { fireAt := e1.time + DEBOUNCE_MS, line0 := e1.line0, text := e1.text })] }
    { fireAt := e1.time + DEBOUNCE_MS, line0 := e1.line0, text := e1.text }
    hq2 (by rw [hkf, hkl])
  have hD : onEditEvent e2 (onEditEvent e1 s) = { s with pendingChanges :=
      [((e2.filePath, e2.line0),
        { fireAt := e2.time + DEBOUNCE_MS, line0 := e2.line0, text := e2.text })] } := by
    rw [hB]
    unfold onEditEvent
    rw [if_pos hact]
    exact hrep
  refine ⟨{ id := s.nextId,
            timestamp := e2.time + DEBOUNCE_MS,
            filePath := e2.filePath,
            changeType := ChangeType.added,
            startLine := e2.line0 + 1,
            endLine := e2.line0 + 1 + (splitLines e2.text).length - 1,
            code := e2.text,
            explanation := none,
            status := Status.pending,
            source := classifySource e2.text }, ?_, rfl⟩
  show (runEdits s [e1, e2]).changes = _
  unfold runEdits
  rw [List.foldl_cons, List.foldl_cons, List.foldl_nil, hA, hC, hD]
  rfl

/-- Witness for C4: on a fresh tracking session, the two concrete edits
above produce exactly one change carrying the second edit's text. -/
theorem debounce_second_edit_wins_witness :
    ∃ c : CodeChange, (runEdits (startTracking 0 {}) [wEdit1, wEdit2]).changes =
      (startTracking 0 {}).changes ++ [c] ∧ c.code = wEdit2.text :=
  debounce_second_edit_wins (startTracking 0 {}) wEdit1 wEdit2 (by decide) (by decide)
    (by decide) (by decide) (by decide) (by decide) (by decide) (by decide)

/-- Claim C5 (code bug): after stopTracking the edit listener is gone, the
timers are cancelled, the journal is finalized and isTracking is false,
but the save watcher — pushed onto the extension subscription list by
startTracking and never disposed by stopTracking — is still subscribed, so
a save event delivered after stop still finds the pending change and runs
an explanation attempt on it, moving it from pending to explained. The
claim's assertion that stop unsubscribes the save feed, so that no save
event after stop triggers an explanation request, is exactly what this
trace refutes. -/
theorem stopTracking_save_leak :
    leakS4.isTracking = false ∧
    leakS4.editListenerActive = false ∧
    leakS4.pendingChanges = [] ∧
    leakS4.currentJournal = none ∧
    leakS4.saveListenerSubscribed = true ∧
    statusOf leakS4 1 = some Status.pending ∧
    statusOf leakS5 1 = some Status.explained ∧
    explanationOf leakS5 1 = some ("done".toList) := by
  decide

/-- Reading a level right after writing it yields the written value. -/
theorem StepExplanations.get_set (ex : StepExplanations) (l : DetailLevel) (v : List Char) :
    (ex.set l v).get l = some v := by
  cases l <;> rfl

/-- A step found by stepsGet has a nonnegative in-range index. -/
theorem stepsGet_some_bounds (t : VoyaTour) (i : Int) (step : VoyaStep)
    (hs : stepsGet t i = some step) : ¬ i < 0 ∧ i.toNat < t.steps.length := by
  unfold stepsGet at hs
  by_cases hneg : i < 0
  · rw [if_pos hneg] at hs
    cases hs
  · rw [if_neg hneg] at hs
    exact ⟨hneg, (List.getElem?_eq_some.mp hs).1⟩

/-- The successful miss path of a deepen request: the updated tour holds
the new cache entry at the requested step and level. -/
theorem deepenRequest_miss_ok (s : ProviderState) (t : VoyaTour) (step : VoyaStep) (i : Int)
    (l : DetailLevel) (e : List Char) (sv : Except Unit Unit)
    (ht : s.currentTour = some t) (hs : stepsGet t i = some step)
    (hmiss : truthy (cachedExplanation step l) = false) :
    (handleDeepenRequest (Except.ok e) sv i l s).1 =
      { s with currentTour := some (deepenedTour t i step l e) } := by
  unfold handleDeepenRequest
  rw [ht]
  dsimp only
  rw [hs]
  dsimp only
  cases hc : cachedExplanation step l with
  | none => cases sv <;> rfl
  | some v =>
    rw [hc] at hmiss
    have hve : v.isEmpty = true := by
      unfold truthy at hmiss
      simpa using hmiss
    dsimp only
    rw [if_pos hve]
    cases sv <;> rfl

/-- The cache-hit path of a deepen request: a truthy cached entry is
yielded at once, with no start message and no generator call. -/
theorem deepenRequest_hit (s : ProviderState) (t : VoyaTour) (step : VoyaStep) (i : Int)
    (l : DetailLevel) (g : Except Unit (List Char)) (sv : Except Unit Unit) (v : List Char)
    (ht : s.currentTour = some t) (hs : stepsGet t i = some step)
    (hv : cachedExplanation step l = some v) (hvne : ¬ v.isEmpty = true) :
    handleDeepenRequest g sv i l s = (s, [ExtMsg.deepenComplete i l v], false) := by
  unfold handleDeepenRequest
  rw [ht]
  dsimp only
  rw [hs]
  dsimp only
  rw [hv]
  dsimp only
  rw [if_neg hvne]

/-- Claim C6 counterexample: with no cached entry and a generator that
fails, two consecutive identical requestDeepen calls with no intervening
cache eviction invoke the generator twice (not at most once), and the
second call yields the error signal rather than a cached value. -/
theorem deepen_generator_twice_on_failure :
    (handleDeepenRequest (Except.error ()) (Except.ok ()) 1 DetailLevel.detailed wProv5).2.2 =
      true ∧
    (handleDeepenRequest (Except.error ()) (Except.ok ()) 1 DetailLevel.detailed
      (handleDeepenRequest (Except.error ()) (Except.ok ()) 1 DetailLevel.detailed
        wProv5).1).2.2 = true ∧
    (handleDeepenRequest (Except.error ()) (Except.ok ()) 1 DetailLevel.detailed
      (handleDeepenRequest (Except.error ()) (Except.ok ()) 1 DetailLevel.detailed
        wProv5).1).2.1 = [ExtMsg.deepenStarted 1, ExtMsg.error errMsgText] := by
  decide

/-- Claim C6 as amended: a truthy cached entry is yielded at once with no
generator call; and when the first of two consecutive identical calls
succeeds with a nonempty explanation, the second call makes no generator
call and yields the value cached by the first (so the generator runs at
most once across the two calls). -/
theorem requestDeepen_cache_first (s : ProviderState) (t : VoyaTour) (step : VoyaStep)
    (i : Int) (l : DetailLevel) (e : List Char) (sv sv2 : Except Unit Unit)
    (g2 : Except Unit (List Char))
    (ht : s.currentTour = some t) (hs : stepsGet t i = some step)
    (he : ¬ e.isEmpty = true) :
    (∀ v, cachedExplanation step l = some v → ¬ v.isEmpty = true →
      handleDeepenRequest g2 sv i l s = (s, [ExtMsg.deepenComplete i l v], false)) ∧
    ((handleDeepenRequest g2 sv2 i l
        (handleDeepenRequest (Except.ok e) sv i l s).1).2.2 = false ∧
      ∃ v, ¬ v.isEmpty = true ∧
        (handleDeepenRequest g2 sv2 i l
          (handleDeepenRequest (Except.ok e) sv i l s).1).2.1 =
            [ExtMsg.deepenComplete i l v] ∧
        ∃ t2 step2,
          (handleDeepenRequest (Except.ok e) sv i l s).1.currentTour = some t2 ∧
          stepsGet t2 i = some step2 ∧ cachedExplanation step2 l = some v) := by
  constructor
  · intro v hv hvne
    exact deepenRequest_hit s t step i l g2 sv v ht hs hv hvne
  · by_cases hmiss : truthy (cachedExplanation step l) = false
    · have h1 := deepenRequest_miss_ok s t step i l e sv ht hs hmiss
      obtain ⟨hneg, hlt⟩ := stepsGet_some_bounds t i step hs
      have ht2 : (handleDeepenRequest (Except.ok e) sv i l s).1.currentTour =
          some (deepenedTour t i step l e) := by
        rw [h1]
      have hs2 : stepsGet (deepenedTour t i step l e) i = some (deepenedStep step l e) := by
        unfold stepsGet deepenedTour
        rw [if_neg hneg]
        exact List.getElem?_set_self hlt
      have hc2 : cachedExplanation (deepenedStep step l e) l = some e := by
        unfold cachedExplanation deepenedStep
        dsimp only
        exact StepExplanations.get_set _ l e
      have h2 := deepenRequest_hit ((handleDeepenRequest (Except.ok e) sv i l s).1)
        (deepenedTour t i step l e) (deepenedStep step l e) i l g2 sv2 e ht2 hs2 hc2 he
      exact ⟨by rw [h2], e, he, by rw [h2], deepenedTour t i step l e,
        deepenedStep step l e, ht2, hs2, hc2⟩
    · have htruthy : truthy (cachedExplanation step l) = true := by
        cases h : truthy (cachedExplanation step l)
        · exact absurd h hmiss
        · rfl
      obtain ⟨v, hv, hvne⟩ : ∃ v, cachedExplanation step l = some v ∧ ¬ v.isEmpty = true := by
        cases hc : cachedExplanation step l with
        | none =>
          rw [hc] at htruthy
          cases htruthy
        | some v =>
          rw [hc] at htruthy
          unfold truthy at htruthy
          exact ⟨v, rfl, by simpa using htruthy⟩
      have h1 := deepenRequest_hit s t step i l (Except.ok e) sv v ht hs hv hvne
      have h1a : (handleDeepenRequest (Except.ok e) sv i l s).1 = s := by rw [h1]
      have h2 := deepenRequest_hit s t step i l g2 sv2 v ht hs hv hvne
      refine ⟨?_, v, hvne, ?_, t, step, ?_, hs, hv⟩
      · rw [h1a, h2]
      · rw [h1a, h2]
      · rw [h1a]
        exact ht

/-- Witness for C6 (amended): on the concrete tour, after a first call
that caches a nonempty explanation, a second identical call makes no
generator call even though the generator it was handed would fail. -/
theorem requestDeepen_cache_first_witness :
    (handleDeepenRequest (Except.error ()) (Except.ok ()) 1 DetailLevel.detailed
      (handleDeepenRequest (Except.ok ("A".toList)) (Except.ok ()) 1 DetailLevel.detailed
        wProv5).1).2.2 = false :=
  (requestDeepen_cache_first wProv5 wTour5 (wStep 1) 1 DetailLevel.detailed
    ("A".toList) (Except.ok ()) (Except.ok ()) (Except.error ()) rfl (by decide)
    (by decide)).2.1

/-- Claim C7 counterexample: the deepened cache entry for the current step
and level is present (an empty string), yet currentExplanation does not
yield it — the JS truthiness test skips an empty cached string and falls
through to the embedded entry. -/
theorem currentExplanation_empty_cached_cex :
    deepCached wAppEmptyCache = some [] ∧
    getCurrentExplanation wAppEmptyCache = "B".toList ∧
    ("B".toList : List Char) ≠ ([] : List Char) := by
  decide

/-- Claim C7 as amended: resolution is strict with presence read as JS
truthiness (present and nonempty): a nonempty cached entry wins, else a
nonempty embedded entry, else the default explanation. -/
theorem currentExplanation_resolution (a : AppState) (t : VoyaTour) (step : VoyaStep)
    (ht : a.activeTour = some t) (hs : t.steps[a.currentStepIndex]? = some step) :
    (∀ v, deepCached a = some v → ¬ v.isEmpty = true → getCurrentExplanation a = v) ∧
    (truthy (deepCached a) = false →
      ∀ w, step.content.explanations.bind (fun ex => ex.get a.detailLevel) = some w →
        ¬ w.isEmpty = true → getCurrentExplanation a = w) ∧
    (truthy (deepCached a) = false →
      truthy (step.content.explanations.bind (fun ex => ex.get a.detailLevel)) = false →
      getCurrentExplanation a = step.content.explanation) := by
  refine ⟨?_, ?_, ?_⟩
  · intro v hv hvne
    unfold getCurrentExplanation
    rw [ht]
    dsimp only
    rw [hs]
    dsimp only
    have htr : truthy (deepCached a) = true := by
      rw [hv]
      unfold truthy
      simpa using hvne
    rw [htr, if_pos rfl, hv]
    rfl
  · intro hf w hw hwne
    unfold getCurrentExplanation
    rw [ht]
    dsimp only
    rw [hs]
    dsimp only
    have htr : truthy (step.content.explanations.bind (fun ex => ex.get a.detailLevel)) =
        true := by
      rw [hw]
      unfold truthy
      simpa using hwne
    rw [hf, if_neg Bool.false_ne_true, htr, if_pos rfl, hw]
    rfl
  · intro hf hf2
    unfold getCurrentExplanation
    rw [ht]
    dsimp only
    rw [hs]
    dsimp only
    rw [hf, if_neg Bool.false_ne_true, hf2, if_neg Bool.false_ne_true]

/-- Witness for C7 (amended): the spec's concrete instance — cached value
A, embedded value B, default C: with the cache entry present the result is
A, with it absent B, and with both absent C. -/
theorem currentExplanation_resolution_witness :
    getCurrentExplanation wAppA = "A".toList ∧
    getCurrentExplanation wAppB = "B".toList ∧
    getCurrentExplanation wAppC = "C".toList := by
  refine ⟨?_, ?_, ?_⟩
  · exact (currentExplanation_resolution wAppA wTourBC wStepBC rfl (by decide)).1
      ("A".toList) (by decide) (by decide)
  · exact (currentExplanation_resolution wAppB wTourBC wStepBC rfl (by decide)).2.1
      (by decide) ("B".toList) (by decide) (by decide)
  · exact (currentExplanation_resolution wAppC wTour5 (wStep 0) rfl (by decide)).2.2
      (by decide) (by decide)

/-- Claim C8: a deepen request whose generator call fails leaves the
provider state (and so the per-step per-level cache) unmodified, emits
exactly the start message and the generic error signal, and no matter the
webview's prior state, replaying those messages through the reducer ends
with isLoadingDeepen false and the webview's own deepened cache untouched
— so a retry of the same request remains possible. -/
theorem deepen_failure_safe (s : ProviderState) (t : VoyaTour) (step : VoyaStep) (i : Int)
    (l : DetailLevel) (sv : Except Unit Unit)
    (ht : s.currentTour = some t) (hs : stepsGet t i = some step)
    (hmiss : truthy (cachedExplanation step l) = false) :
    (handleDeepenRequest (Except.error ()) sv i l s).1 = s ∧
    (handleDeepenRequest (Except.error ()) sv i l s).2.1 =
      [ExtMsg.deepenStarted i, ExtMsg.error errMsgText] ∧
    ∀ a : AppState,
      ((handleDeepenRequest (Except.error ()) sv i l s).2.1.foldl applyMsg a).isLoadingDeepen
        = false ∧
      ((handleDeepenRequest (Except.error ()) sv i l s).2.1.foldl applyMsg a).deepened
        = a.deepened := by
  have hstep : handleDeepenRequest (Except.error ()) sv i l s =
      (s, [ExtMsg.deepenStarted i, ExtMsg.error errMsgText], true) := by
    unfold handleDeepenRequest
    rw [ht]
    dsimp only
    rw [hs]
    dsimp only
    cases hc : cachedExplanation step l with
    | none => rfl
    | some v =>
      rw [hc] at hmiss
      have hve : v.isEmpty = true := by
        unfold truthy at hmiss
        simpa using hmiss
      dsimp only
      rw [if_pos hve]
      rfl
  refine ⟨by rw [hstep], by rw [hstep], ?_⟩
  intro a
  rw [hstep]
  exact ⟨rfl, rfl⟩

/-- Witness for C8: the concrete failing deepen request on the five-step
tour leaves the provider state intact and drives any fresh webview state
back to a non-loading one. -/
theorem deepen_failure_safe_witness :
    (handleDeepenRequest (Except.error ()) (Except.ok ()) 2 DetailLevel.detailed wProv5).1 =
      wProv5 ∧
    (handleDeepenRequest (Except.error ()) (Except.ok ()) 2 DetailLevel.detailed
      wProv5).2.1 = [ExtMsg.deepenStarted 2, ExtMsg.error errMsgText] ∧
    ((handleDeepenRequest (Except.error ()) (Except.ok ()) 2 DetailLevel.detailed
      wProv5).2.1.foldl applyMsg {}).isLoadingDeepen = false := by
  have h := deepen_failure_safe wProv5 wTour5 (wStep 2) 2 DetailLevel.detailed
    (Except.ok ()) rfl (by decide) (by decide)
  exact ⟨h.1, h.2.1, (h.2.2 {}).1⟩

/-- Claim C9: with a tour of at least one step loaded, goToStep clamps any
integer index into the valid range, never failing: the new index is the
clamped value and lies within bounds, and only a step-change announcement
is made. -/
theorem goToStep_clamps (s : ProviderState) (t : VoyaTour) (i : Int)
    (ht : s.currentTour = some t) (hn : 1 ≤ t.steps.length) :
    (goToStep i s).1.currentStepIndex =
      (max 0 (min i ((t.steps.length : Int) - 1))).toNat ∧
    (goToStep i s).1.currentStepIndex ≤ t.steps.length - 1 ∧
    (goToStep i s).1.currentTour = s.currentTour ∧
    (goToStep i s).2 =
      [ExtMsg.stepChanged (max 0 (min i ((t.steps.length : Int) - 1))).toNat] := by
  unfold goToStep
  rw [ht]
  dsimp only
  refine ⟨rfl, ?_, rfl, rfl⟩
  have h1 : (max 0 (min i ((t.steps.length : Int) - 1))) ≤ (t.steps.length : Int) - 1 := by
    apply max_le
    · omega
    · exact min_le_right _ _
  have h2 : (0 : Int) ≤ max 0 (min i ((t.steps.length : Int) - 1)) := le_max_left _ _
  omega

/-- Witness for C9: on the five-step tour, goToStep of minus three lands
on step 0 and goToStep of 99 lands on step 4. -/
theorem goToStep_clamps_witness :
    (goToStep (-3) wProv5).1.currentStepIndex = 0 ∧
    (goToStep 99 wProv5).1.currentStepIndex = 4 := by
  constructor
  · rw [(goToStep_clamps wProv5 wTour5 (-3) rfl (by decide)).1]
    decide
  · rw [(goToStep_clamps wProv5 wTour5 99 rfl (by decide)).1]
    decide

/-- Claim C10: a deepen request with no tour loaded, or whose step index
is out of the loaded tour's bounds (negative included), is a complete
silent no-op: the state is unchanged (no clamping), no message of any kind
is emitted — so no loading flag can be set — and the generator is not
invoked. -/
theorem deepen_out_of_range_noop (gen : Except Unit (List Char)) (sv : Except Unit Unit)
    (i : Int) (l : DetailLevel) (s : ProviderState)
    (h : s.currentTour = none ∨ ∃ t, s.currentTour = some t ∧ stepsGet t i = none) :
    handleDeepenRequest gen sv i l s = (s, [], false) := by
  unfold handleDeepenRequest
  rcases h with h | ⟨t, ht, hs⟩
  · rw [h]
  · rw [ht]
    dsimp only
    rw [hs]

/-- Witness for C10: a deepen request with no tour loaded, one past the
end of the five-step tour, and one at a negative index, are each silent
no-ops. -/
theorem deepen_out_of_range_noop_witness :
    handleDeepenRequest (Except.ok ("x".toList)) (Except.ok ()) 0 DetailLevel.detailed {} =
      ({}, [], false) ∧
    handleDeepenRequest (Except.ok ("x".toList)) (Except.ok ()) 99 DetailLevel.detailed
      wProv5 = (wProv5, [], false) ∧
    handleDeepenRequest (Except.ok ("x".toList)) (Except.ok ()) (-1) DetailLevel.detailed
      wProv5 = (wProv5, [], false) := by
  refine ⟨?_, ?_, ?_⟩
  · exact deepen_out_of_range_noop _ _ _ _ _ (Or.inl rfl)
  · exact deepen_out_of_range_noop _ _ _ _ _ (Or.inr ⟨wTour5, rfl, by decide⟩)
  · exact deepen_out_of_range_noop _ _ _ _ _ (Or.inr ⟨wTour5, rfl, by decide⟩)

end Voya
